import Mathlib

/-!
Verification of the async_worker job-queue core (src/app/database.py,
src/app/worker.py, src/app/main.py) against its natural-language
specification.

The durable store is modelled as an in-memory table of job rows; every
repository method of `DatabaseManager` becomes a pure function from table
state to table state.  A Postgres `NOW()` timestamp becomes an explicit
`now : Nat` argument, and the serial `id` column becomes a fresh-id counter
carried in the table state.  Each single SQL statement executes atomically
(one transaction), so a concurrent history of repository calls is an
arbitrary interleaving of these atomic state transitions.
-/

namespace AsyncWorker

mutual

/-- JSON values, the model of a Python `dict`/JSON payload.  Mutual with
`JArr` (JSON arrays) and `JObj` (JSON objects as ordered key/value lists,
mirroring Python dict insertion order). -/
inductive JVal where
  | null : JVal
  | bool (b : Bool) : JVal
  | num (n : Int) : JVal
  | str (s : String) : JVal
  | arr (items : JArr) : JVal
  | obj (fields : JObj) : JVal
deriving DecidableEq

inductive JArr where
  | nil : JArr
  | cons (v : JVal) (rest : JArr) : JArr
deriving DecidableEq

inductive JObj where
  | kvcons (k : String) (v : JVal) (rest : JObj) : JObj
  | nil : JObj
deriving DecidableEq

end

/-- Insert a key/value pair into a key-sorted object, keeping keys sorted
(the recursive step of `json.dumps(..., sort_keys=True)` key ordering). -/
def JObj.insertSorted (k : String) (v : JVal) : JObj → JObj
  | .nil => .kvcons k v .nil
  | .kvcons k2 v2 rest =>
    if k ≤ k2 then .kvcons k v (.kvcons k2 v2 rest)
    else .kvcons k2 v2 (JObj.insertSorted k v rest)

mutual

/-- Canonical form of a JSON value: object keys sorted recursively.  This is
the normal form `json.dumps(payload, sort_keys=True)` serializes, and the
form in which a jsonb column stores and compares payloads. -/
def JVal.canon : JVal → JVal
  | .null => .null
  | .bool b => .bool b
  | .num n => .num n
  | .str s => .str s
  | .arr items => .arr items.canon
  | .obj fields => .obj fields.canon

def JArr.canon : JArr → JArr
  | .nil => .nil
  | .cons v rest => .cons v.canon rest.canon

def JObj.canon : JObj → JObj
  | .nil => .nil
  | .kvcons k v rest => rest.canon.insertSorted k v.canon

end

/-- Modelled from the spec: the `jobs` table DDL is not under src/, so the
payload column's equality semantics are taken from the spec, which makes
duplicate-detection equality "exact structural equality of canonicalized
payload" (§4.4, §9): two stored payloads are equal exactly when their
canonical (key-sorted) forms coincide, as a jsonb column provides. -/
def jsonbEq (a b : JVal) : Bool := a.canon == b.canon

/-- The `status` column: one of `queued`, `processing`, `completed`,
`failed`. -/
inductive JobStatus where
  | queued : JobStatus
  | processing : JobStatus
  | completed : JobStatus
  | failed : JobStatus
deriving DecidableEq

/-- One row of the `jobs` table.  Modelled from the spec where the DDL is
absent from src/: the column set is §3's data model, which is exactly the
set of columns the SQL in src/app/database.py reads and writes.  Ids are
the store's serial integers (the Python layer's `str(job_id)` conversion is
a pure renaming). -/
structure JobRow where
  id : Nat
  payload : JVal
  status : JobStatus
  attempt_count : Nat
  worker_id : Option String
  created_at : Nat
  started_at : Option Nat
  completed_at : Option Nat
  last_error : Option String
deriving DecidableEq

/-- The `jobs` table: rows in insertion order plus the serial-id counter. -/
structure JobTable where
  rows : List JobRow
  nextId : Nat
deriving DecidableEq

/-- The Python `Job` dataclass of src/app/database.py: the projection of a
row that `get_next_job` / `get_job_by_id` return
(`id, payload, status, attempt_count`). -/
structure Job where
  id : Nat
  payload : JVal
  status : JobStatus
  attempt_count : Nat
deriving DecidableEq

/-- Row lookup, `SELECT ... FROM jobs WHERE id = $1` (first row with the given id). -/
def getRow (t : JobTable) (job_id : Nat) : Option JobRow :=
  t.rows.find? (fun r => r.id == job_id)

/-- Row update, `UPDATE jobs SET ... WHERE id = $1`: apply `f` to every row whose id
matches. -/
def updateWhereId (job_id : Nat) (f : JobRow → JobRow) (rows : List JobRow) :
    List JobRow :=
  rows.map (fun r => if r.id = job_id then f r else r)

/-- Ids of the rows currently in status `queued`, in list order. -/
def queuedIdsL (rows : List JobRow) : List Nat :=
  (rows.filter (fun r => r.status == JobStatus.queued)).map (fun r => r.id)

/-- Ids of the rows currently in status `queued`, in table order. -/
def queuedIds (t : JobTable) : List Nat := queuedIdsL t.rows

/-- Well-formedness of a table state: row ids are pairwise distinct (the id
column is a primary key) and below the serial counter.  Every state the
store reaches from an empty table satisfies this. -/
def wfTable (t : JobTable) : Prop :=
  ((t.rows.map (fun r => r.id)).Nodup) ∧ ∀ r ∈ t.rows, r.id < t.nextId

instance (t : JobTable) : Decidable (wfTable t) := by
  unfold wfTable; infer_instance

/-- The row a fresh INSERT produces.  Modelled from the spec for the
columns the INSERT leaves to table defaults (the DDL is absent from
src/): §4.1 `insert` "creates a new row with status `queued`,
`attempt_count = 0`, `created_at = now`". -/
def newRow (payload : JVal) (now : Nat) (id : Nat) : JobRow :=
  { id := id, payload := payload, status := JobStatus.queued,
    attempt_count := 0, worker_id := none, created_at := now,
    started_at := none, completed_at := none, last_error := none }

/-- Model of `DatabaseManager.create_job`:
`INSERT INTO jobs (payload) VALUES ($1) RETURNING id` — append a fresh
row (see `newRow`) and return its serial id. -/
def create_job (payload : JVal) (now : Nat) (t : JobTable) : Nat × JobTable :=
  (t.nextId,
    { rows := t.rows ++ [newRow payload now t.nextId],
      nextId := t.nextId + 1 })

/-- The claim subquery
`SELECT id FROM jobs WHERE status = 'queued' ORDER BY created_at LIMIT 1`:
the queued row with minimal `created_at` (first such row on ties). -/
def oldestQueued : List JobRow → Option JobRow
  | [] => none
  | r :: rs =>
    let best := oldestQueued rs
    if r.status = JobStatus.queued then
      match best with
      | none => some r
      | some b => if r.created_at ≤ b.created_at then some r else some b
    else best

/-- The SET clause of the claim UPDATE: `status='processing',
worker_id=$1, started_at=NOW()`. -/
def claimUpdate (worker_id : String) (now : Nat) (q : JobRow) : JobRow :=
  { q with status := JobStatus.processing, worker_id := some worker_id,
           started_at := some now }

/-- The SET clause of `complete_job`: `status='completed',
completed_at=NOW()`. -/
def completeUpdate (now : Nat) (r : JobRow) : JobRow :=
  { r with status := JobStatus.completed, completed_at := some now }

/-- The SET clause of `fail_job`: `status='failed', last_error=$1`. -/
def failUpdate (error_message : String) (r : JobRow) : JobRow :=
  { r with status := JobStatus.failed, last_error := some error_message }

/-- The SET clause of `replace_duplicate_job`: `payload=$1,
status='queued', attempt_count=0, created_at=NOW(), worker_id=NULL,
started_at=NULL` (note: `completed_at` and `last_error` are not reset). -/
def replaceUpdate (new_payload : JVal) (now : Nat) (r : JobRow) : JobRow :=
  { r with payload := new_payload, status := JobStatus.queued,
           attempt_count := 0, created_at := now, worker_id := none,
           started_at := none }

/-- Model of `DatabaseManager.get_next_job`: the atomic claim statement
`UPDATE jobs SET status='processing', worker_id=$1, started_at=NOW()
 WHERE id = (SELECT id FROM jobs WHERE status='queued'
             ORDER BY created_at LIMIT 1 FOR UPDATE SKIP LOCKED)
 RETURNING id, payload, status, attempt_count`.
The whole statement is one transaction, so it is one atomic step here; the
`FOR UPDATE SKIP LOCKED` clause is what makes that sound under concurrency
(no two interleaved claims can select the same row).  Note the SET list
does not touch `attempt_count`. -/
def get_next_job (worker_id : String) (now : Nat) (t : JobTable) :
    Option Job × JobTable :=
  match oldestQueued t.rows with
  | none => (none, t)
  | some r =>
    (some { id := r.id, payload := r.payload,
            status := JobStatus.processing,
            attempt_count := r.attempt_count },
      { t with
        rows := updateWhereId r.id (claimUpdate worker_id now) t.rows })

/-- Model of `DatabaseManager.complete_job`:
`UPDATE jobs SET status='completed', completed_at=NOW() WHERE id = $1`. -/
def complete_job (job_id : Nat) (now : Nat) (t : JobTable) : JobTable :=
  { t with
    rows := updateWhereId job_id (completeUpdate now) t.rows }

/-- Model of `DatabaseManager.fail_job`:
`UPDATE jobs SET status='failed', last_error=$1 WHERE id = $2`. -/
def fail_job (job_id : Nat) (error_message : String) (t : JobTable) :
    JobTable :=
  { t with
    rows := updateWhereId job_id (failUpdate error_message) t.rows }

/-- Model of `DatabaseManager.get_job_by_id`:
`SELECT id, payload, status, attempt_count FROM jobs WHERE id = $1`. -/
def get_job_by_id (job_id : Nat) (t : JobTable) : Option Job :=
  (getRow t job_id).map (fun r =>
    { id := r.id, payload := r.payload, status := r.status,
      attempt_count := r.attempt_count })

/-- Model of `DatabaseManager.find_duplicate_job`:
`SELECT id FROM jobs WHERE payload = $1 AND status IN ('queued','processing')`
with `$1 = json.dumps(payload, sort_keys=True)`, i.e. the canonical form of
the given payload; the stored payload is compared to it under the
(spec-modelled) structural jsonb equality `jsonbEq`. -/
def find_duplicate_job (payload : JVal) (t : JobTable) : Option Nat :=
  (t.rows.find? (fun r => jsonbEq r.payload payload &&
      (r.status == JobStatus.queued || r.status == JobStatus.processing))).map
    (fun r => r.id)

/-- Model of `DatabaseManager.replace_duplicate_job`:
`UPDATE jobs SET payload=$1, status='queued', attempt_count=0,
 created_at=NOW(), worker_id=NULL, started_at=NULL WHERE id = $2`,
returning `old_job_id`.  (`completed_at` and `last_error` are not in the
SET list and are left untouched.) -/
def replace_duplicate_job (old_job_id : Nat) (new_payload : JVal) (now : Nat)
    (t : JobTable) : Nat × JobTable :=
  (old_job_id,
    { t with
      rows := updateWhereId old_job_id (replaceUpdate new_payload now)
        t.rows })

/-- The `POST /jobs` handler `create_job` of src/app/main.py: look for a
live duplicate; replace it if found, insert otherwise. -/
def submitJob (payload : JVal) (now : Nat) (t : JobTable) : Nat × JobTable :=
  match find_duplicate_job payload t with
  | some existing_job_id => replace_duplicate_job existing_job_id payload now t
  | none => create_job payload now t

/-- Outcome of the opaque execution step inside
`SimpleWorker.process_job` (the `await asyncio.sleep(2)` / print body of
the `try`, which may succeed or raise an error with a message). -/
inductive ExecOutcome where
  | success : ExecOutcome
  | failure (msg : String) : ExecOutcome
deriving DecidableEq

/-- Model of `SimpleWorker.process_job`: run the opaque step; on success call
`complete_job`, on a raised error call `fail_job` with `str(e)`. -/
def process_job (outcome : ExecOutcome) (job_id : Nat) (now : Nat)
    (t : JobTable) : JobTable :=
  match outcome with
  | ExecOutcome.success => complete_job job_id now t
  | ExecOutcome.failure msg => fail_job job_id msg t

/-- The `DatabaseManager` object of src/app/database.py: the connection
pool handle (`pool = None` until `initialize()`, again `None` after
`close()`) together with the store state its connections act on. -/
structure DatabaseManager where
  pool : Bool
  table : JobTable
deriving DecidableEq

/-- The constructed manager before `initialize()`: `self.pool = None`. -/
def DatabaseManager.new (t : JobTable) : DatabaseManager :=
  { pool := false, table := t }

/-- Model of `DatabaseManager.initialize()`: create the pool if absent. -/
def DatabaseManager.setup (db : DatabaseManager) : DatabaseManager :=
  { db with pool := true }

/-- Model of `DatabaseManager.close()`: close the pool and set it to `None`. -/
def DatabaseManager.shutdown (db : DatabaseManager) : DatabaseManager :=
  { db with pool := false }

/-- The error message `_acquire_conn` raises as a `RuntimeError` when the
pool is `None`. -/
def poolErr : String :=
  "Database connection pool not initialized. Call `await initialize()` first."

/-- Model of `DatabaseManager._acquire_conn`: raise `RuntimeError` when
`self.pool is None`, otherwise hand out a connection. -/
def acquire_conn (db : DatabaseManager) : Except String Unit :=
  if db.pool then Except.ok () else Except.error poolErr

/-- Pooled `DatabaseManager.create_job` at the manager level: acquire a
connection (raising if the pool is gone), then run the INSERT. -/
def db_create_job (payload : JVal) (now : Nat) (db : DatabaseManager) :
    Except String Nat × DatabaseManager :=
  match acquire_conn db with
  | Except.error e => (Except.error e, db)
  | Except.ok _ =>
    let res := create_job payload now db.table
    (Except.ok res.1, { db with table := res.2 })

/-- Pooled `DatabaseManager.get_next_job` at the manager level. -/
def db_get_next_job (worker_id : String) (now : Nat) (db : DatabaseManager) :
    Except String (Option Job) × DatabaseManager :=
  match acquire_conn db with
  | Except.error e => (Except.error e, db)
  | Except.ok _ =>
    let res := get_next_job worker_id now db.table
    (Except.ok res.1, { db with table := res.2 })

/-- Pooled `DatabaseManager.complete_job` at the manager level. -/
def db_complete_job (job_id : Nat) (now : Nat) (db : DatabaseManager) :
    Except String Unit × DatabaseManager :=
  match acquire_conn db with
  | Except.error e => (Except.error e, db)
  | Except.ok _ => (Except.ok (), { db with table := complete_job job_id now db.table })

/-- Pooled `DatabaseManager.fail_job` at the manager level. -/
def db_fail_job (job_id : Nat) (error_message : String) (db : DatabaseManager) :
    Except String Unit × DatabaseManager :=
  match acquire_conn db with
  | Except.error e => (Except.error e, db)
  | Except.ok _ => (Except.ok (), { db with table := fail_job job_id error_message db.table })

/-- Pooled `DatabaseManager.get_job_by_id` at the manager level. -/
def db_get_job_by_id (job_id : Nat) (db : DatabaseManager) :
    Except String (Option Job) × DatabaseManager :=
  match acquire_conn db with
  | Except.error e => (Except.error e, db)
  | Except.ok _ => (Except.ok (get_job_by_id job_id db.table), db)

/-- Pooled `DatabaseManager.find_duplicate_job` at the manager level. -/
def db_find_duplicate_job (payload : JVal) (db : DatabaseManager) :
    Except String (Option Nat) × DatabaseManager :=
  match acquire_conn db with
  | Except.error e => (Except.error e, db)
  | Except.ok _ => (Except.ok (find_duplicate_job payload db.table), db)

/-- Pooled `DatabaseManager.replace_duplicate_job` at the manager level. -/
def db_replace_duplicate_job (old_job_id : Nat) (new_payload : JVal)
    (now : Nat) (db : DatabaseManager) :
    Except String Nat × DatabaseManager :=
  match acquire_conn db with
  | Except.error e => (Except.error e, db)
  | Except.ok _ =>
    let res := replace_duplicate_job old_job_id new_payload now db.table
    (Except.ok res.1, { db with table := res.2 })

/-- The operations through which the running system (HTTP handlers of
src/app/main.py plus the worker loop of src/app/worker.py) mutates the job
table: submit a payload, claim the next job, mark a job completed, mark a
job failed.  `replace_duplicate_job` is reachable only inside `submit`;
status reads do not mutate. -/
inductive SysOp where
  | submit (payload : JVal) (now : Nat) : SysOp
  | claim (worker_id : String) (now : Nat) : SysOp
  | complete (job_id : Nat) (now : Nat) : SysOp
  | fail (job_id : Nat) (msg : String) : SysOp

/-- Effect of one system operation on the job table. -/
def applyOp (op : SysOp) (t : JobTable) : JobTable :=
  match op with
  | SysOp.submit p now => (submitJob p now t).2
  | SysOp.claim w now => (get_next_job w now t).2
  | SysOp.complete j now => complete_job j now t
  | SysOp.fail j m => fail_job j m t

/-- Run a sequence of system operations (one interleaving of the
concurrent handlers and workers, each operation being one atomic
transaction). -/
def runOps (ops : List SysOp) (t : JobTable) : JobTable :=
  ops.foldl (fun s op => applyOp op s) t

/-- One claim attempt per listed worker, in the given interleaving order;
returns the successfully claimed jobs in claim order and the final table.
Each `get_next_job` call is a single atomic transaction, so an arbitrary
concurrent execution of N claimers is exactly some such sequence. -/
def runClaims (workers : List String) (now : Nat) (t : JobTable) :
    List Job × JobTable :=
  match workers with
  | [] => ([], t)
  | w :: ws =>
    match get_next_job w now t with
    | (none, t2) => runClaims ws now t2
    | (some j, t2) =>
      let rest := runClaims ws now t2
      (j :: rest.1, rest.2)

/-! ### Concrete fixtures (used to witness the theorems) -/

/-- The payload `{"task": "x"}` of the spec's end-to-end scenario. -/
def taskX : JVal := JVal.obj (JObj.kvcons "task" (JVal.str "x") JObj.nil)

/-- A fresh, empty jobs table. -/
def emptyTable : JobTable := { rows := [], nextId := 0 }

/-- A queued job row with id 0, created at time 0. -/
def rowA : JobRow :=
  { id := 0, payload := taskX, status := JobStatus.queued,
    attempt_count := 0, worker_id := none, created_at := 0,
    started_at := none, completed_at := none, last_error := none }

/-- A queued job row with id 1, created at time 1. -/
def rowB : JobRow :=
  { id := 1, payload := JVal.null, status := JobStatus.queued,
    attempt_count := 0, worker_id := none, created_at := 1,
    started_at := none, completed_at := none, last_error := none }

/-- A table with two queued jobs, inserted at increasing times. -/
def twoJobs : JobTable := { rows := [rowA, rowB], nextId := 2 }

/-- A job row that has already completed. -/
def rowDone : JobRow := { rowA with status := JobStatus.completed }

/-- A table holding one already-completed job. -/
def doneTable : JobTable := { rows := [rowDone], nextId := 1 }

/-- The behaviour §4.2 of the spec ascribes to one `claimNext` call,
stated over the model: if no queued row exists the call returns none and
leaves the table unchanged; otherwise it picks a queued row of minimal
`created_at`, returns its new state (status `processing`, same id,
payload and `attempt_count`), updates exactly that row (setting
`worker_id` and `started_at`), and leaves every other row alone; and over
an all-queued table with strictly increasing creation times, sequential
claims return the rows in creation order. -/
def ClaimNextSpec (w : String) (now : Nat) (t : JobTable) : Prop :=
  ((get_next_job w now t).1 = none →
    (get_next_job w now t).2 = t ∧ queuedIds t = []) ∧
  (∀ j, (get_next_job w now t).1 = some j →
    ∃ r ∈ t.rows, r.status = JobStatus.queued ∧
      (∀ q ∈ t.rows, q.status = JobStatus.queued →
        r.created_at ≤ q.created_at) ∧
      j = { id := r.id, payload := r.payload,
            status := JobStatus.processing,
            attempt_count := r.attempt_count } ∧
      getRow (get_next_job w now t).2 r.id =
        some { r with status := JobStatus.processing,
                      worker_id := some w, started_at := some now } ∧
      (∀ k, k ≠ r.id → getRow (get_next_job w now t).2 k = getRow t k)) ∧
  (∀ workers : List String,
    (∀ r ∈ t.rows, r.status = JobStatus.queued) →
    t.rows.Pairwise (fun a b => a.created_at < b.created_at) →
    (runClaims workers now t).1.map (fun j => j.id) =
      (t.rows.map (fun r => r.id)).take workers.length)

/-- What C10 asserts of a manager whose pool is gone: every repository
operation answers the `RuntimeError` of `_acquire_conn` and leaves the
manager (hence all job state) unchanged; moreover a freshly constructed
manager and a closed manager are in exactly that pool-less state. -/
def PoolRejects (db : DatabaseManager) (p : JVal) (w : String)
    (jid now : Nat) (m : String) : Prop :=
  db_create_job p now db = (Except.error poolErr, db) ∧
  db_get_next_job w now db = (Except.error poolErr, db) ∧
  db_complete_job jid now db = (Except.error poolErr, db) ∧
  db_fail_job jid m db = (Except.error poolErr, db) ∧
  db_get_job_by_id jid db = (Except.error poolErr, db) ∧
  db_find_duplicate_job p db = (Except.error poolErr, db) ∧
  db_replace_duplicate_job jid p now db = (Except.error poolErr, db)

/-! ### Basic lemmas about row lookup and row update -/

theorem getRow_id {t : JobTable} {k : Nat} {r : JobRow}
    (h : getRow t k = some r) : r.id = k ∧ r ∈ t.rows := by
  unfold getRow at h
  exact ⟨by simpa using List.find?_some h, List.mem_of_find?_eq_some h⟩

theorem getRow_eq_none {t : JobTable} {k : Nat} :
    getRow t k = none ↔ ∀ r ∈ t.rows, r.id ≠ k := by
  unfold getRow
  simp [List.find?_eq_none]

theorem find?_id_updateWhereId (jid k : Nat) (f : JobRow → JobRow)
    (hf : ∀ r, (f r).id = r.id) (rows : List JobRow) :
    (updateWhereId jid f rows).find? (fun r => r.id == k) =
      (rows.find? (fun r => r.id == k)).map
        (fun r => if r.id = jid then f r else r) := by
  have hp : ((fun r : JobRow => r.id == k) ∘
      (fun r => if r.id = jid then f r else r)) =
      (fun r : JobRow => r.id == k) := by
    funext r
    by_cases h : r.id = jid
    · simp [Function.comp, h, hf]
    · simp [Function.comp, h]
  unfold updateWhereId
  rw [List.find?_map, hp]

theorem updateWhereId_map_id (jid : Nat) (f : JobRow → JobRow)
    (hf : ∀ r, (f r).id = r.id) (rows : List JobRow) :
    (updateWhereId jid f rows).map (fun r => r.id) =
      rows.map (fun r => r.id) := by
  unfold updateWhereId
  rw [List.map_map]
  apply List.map_congr_left
  intro r _
  by_cases h : r.id = jid
  · simp [Function.comp, h, hf]
  · simp [Function.comp, h]

theorem updateWhereId_of_forall_ne (jid : Nat) (f : JobRow → JobRow) :
    ∀ rows : List JobRow, (∀ r ∈ rows, r.id ≠ jid) →
      updateWhereId jid f rows = rows := by
  intro rows
  induction rows with
  | nil => intro _; rfl
  | cons a l ih =>
    intro h
    have ha : ¬ a.id = jid := h a (List.mem_cons_self a l)
    have h2 := ih (fun r hr => h r (List.mem_cons_of_mem a hr))
    unfold updateWhereId at h2 ⊢
    simp only [List.map_cons, if_neg ha, h2]

theorem find?_append_none {α : Type} {p : α → Bool} {l1 l2 : List α}
    (h : l1.find? p = none) : (l1 ++ l2).find? p = l2.find? p := by
  induction l1 with
  | nil => simp
  | cons a l ih =>
    rw [List.find?_cons] at h
    cases hpa : p a with
    | true => simp [hpa] at h
    | false =>
      simp only [hpa] at h
      simp only [List.cons_append, List.find?_cons, hpa]
      exact ih h

/-! ### Lemmas about the claim subquery `oldestQueued` -/

theorem oldestQueued_eq_none {rows : List JobRow} :
    oldestQueued rows = none ↔ ∀ r ∈ rows, r.status ≠ JobStatus.queued := by
  induction rows with
  | nil => simp [oldestQueued]
  | cons a l ih =>
    simp only [oldestQueued]
    by_cases ha : a.status = JobStatus.queued
    · simp only [ha, if_true]
      cases h : oldestQueued l with
      | none => simp [ha]
      | some b =>
        have hL : ¬ ((if a.created_at ≤ b.created_at then some a
            else some b) = (none : Option JobRow)) := by
          split <;> simp
        have hR : ¬ (∀ r ∈ a :: l, r.status ≠ JobStatus.queued) :=
          fun hall => (hall a (List.mem_cons_self a l)) ha
        exact iff_of_false hL hR
    · simp only [ha, if_false]
      simp [ih, ha]

theorem oldestQueued_spec {rows : List JobRow} {r : JobRow}
    (h : oldestQueued rows = some r) :
    r ∈ rows ∧ r.status = JobStatus.queued ∧
      ∀ q ∈ rows, q.status = JobStatus.queued →
        r.created_at ≤ q.created_at := by
  induction rows generalizing r with
  | nil => simp [oldestQueued] at h
  | cons a l ih =>
    simp only [oldestQueued] at h
    by_cases ha : a.status = JobStatus.queued
    · simp only [ha, if_true] at h
      cases hl : oldestQueued l with
      | none =>
        rw [hl] at h
        cases h
        refine ⟨List.mem_cons_self _ _, ha, ?_⟩
        intro q hq hqs
        rcases List.mem_cons.mp hq with hq | hq
        · subst hq; exact Nat.le_refl _
        · exact absurd hqs (oldestQueued_eq_none.mp hl q hq)
      | some b =>
        rw [hl] at h
        obtain ⟨hbmem, hbq, hbmin⟩ := ih hl
        by_cases hle : a.created_at ≤ b.created_at
        · simp only [hle, if_true] at h
          cases h
          refine ⟨List.mem_cons_self _ _, ha, ?_⟩
          intro q hq hqs
          rcases List.mem_cons.mp hq with hq | hq
          · subst hq; exact Nat.le_refl _
          · exact Nat.le_trans hle (hbmin q hq hqs)
        · simp only [hle, if_false] at h
          cases h
          refine ⟨List.mem_cons_of_mem _ hbmem, hbq, ?_⟩
          intro q hq hqs
          rcases List.mem_cons.mp hq with hq | hq
          · subst hq; exact Nat.le_of_lt (Nat.lt_of_not_le hle)
          · exact hbmin q hq hqs
    · simp only [ha, if_false] at h
      obtain ⟨hbmem, hbq, hbmin⟩ := ih h
      refine ⟨List.mem_cons_of_mem _ hbmem, hbq, ?_⟩
      intro q hq hqs
      rcases List.mem_cons.mp hq with hq | hq
      · subst hq; exact absurd hqs ha
      · exact hbmin q hq hqs

/-! ### Effect of `UPDATE ... WHERE id = $1` on row lookup -/

theorem getRow_mk_update (t : JobTable) (jid k : Nat) (f : JobRow → JobRow)
    (hf : ∀ r, (f r).id = r.id) :
    getRow { t with rows := updateWhereId jid f t.rows } k =
      (getRow t k).map (fun r => if r.id = jid then f r else r) := by
  unfold getRow
  exact find?_id_updateWhereId jid k f hf t.rows

theorem getRow_update_self {t : JobTable} {jid : Nat} {r : JobRow}
    (f : JobRow → JobRow) (hf : ∀ q, (f q).id = q.id)
    (h : getRow t jid = some r) :
    getRow { t with rows := updateWhereId jid f t.rows } jid = some (f r) := by
  rw [getRow_mk_update t jid jid f hf, h]
  simp [(getRow_id h).1]

theorem getRow_update_other {t : JobTable} {jid k : Nat}
    (f : JobRow → JobRow) (hf : ∀ q, (f q).id = q.id) (hk : k ≠ jid) :
    getRow { t with rows := updateWhereId jid f t.rows } k = getRow t k := by
  rw [getRow_mk_update t jid k f hf]
  cases h : getRow t k with
  | none => rfl
  | some r => simp [(getRow_id h).1, hk]

theorem complete_job_not_found {t : JobTable} {jid : Nat} (now : Nat)
    (h : getRow t jid = none) : complete_job jid now t = t := by
  unfold complete_job
  rw [updateWhereId_of_forall_ne _ _ _ (getRow_eq_none.mp h)]

theorem fail_job_not_found {t : JobTable} {jid : Nat} (msg : String)
    (h : getRow t jid = none) : fail_job jid msg t = t := by
  unfold fail_job
  rw [updateWhereId_of_forall_ne _ _ _ (getRow_eq_none.mp h)]

/-! ### The queued set across one claim -/

theorem queuedIdsL_eq_nil {rows : List JobRow} :
    queuedIdsL rows = [] ↔ ∀ r ∈ rows, r.status ≠ JobStatus.queued := by
  unfold queuedIdsL
  simp [List.filter_eq_nil_iff]

theorem mem_queuedIdsL {rows : List JobRow} {r : JobRow}
    (hmem : r ∈ rows) (hq : r.status = JobStatus.queued) :
    r.id ∈ queuedIdsL rows := by
  unfold queuedIdsL
  exact List.mem_map_of_mem _ (List.mem_filter.mpr ⟨hmem, by simp [hq]⟩)

theorem queuedIdsL_sublist (rows : List JobRow) :
    (queuedIdsL rows).Sublist (rows.map (fun r => r.id)) :=
  List.Sublist.map _ (List.filter_sublist rows)

theorem queuedIdsL_nodup {rows : List JobRow}
    (hnd : (rows.map (fun r => r.id)).Nodup) : (queuedIdsL rows).Nodup :=
  (queuedIdsL_sublist rows).nodup hnd

theorem queuedIdsL_claim {f : JobRow → JobRow}
    (hf_st : ∀ q, (f q).status ≠ JobStatus.queued) :
    ∀ {rows : List JobRow} {r : JobRow},
      (rows.map (fun q => q.id)).Nodup → r ∈ rows →
      r.status = JobStatus.queued →
      queuedIdsL (updateWhereId r.id f rows) = (queuedIdsL rows).erase r.id := by
  intro rows
  induction rows with
  | nil => intro r _ hmem _; simp at hmem
  | cons a l ih =>
    intro r hnd hmem hq
    have hnd1 : a.id ∉ l.map (fun q => q.id) := (List.nodup_cons.mp hnd).1
    have hnd2 : (l.map (fun q => q.id)).Nodup := (List.nodup_cons.mp hnd).2
    rcases List.mem_cons.mp hmem with hra | hrl
    · subst hra
      have hrest : updateWhereId r.id f l = l :=
        updateWhereId_of_forall_ne _ _ l
          (fun q hql hqe => hnd1 (hqe ▸ List.mem_map_of_mem _ hql))
      unfold updateWhereId at hrest ⊢
      simp only [List.map_cons, if_pos rfl, hrest]
      unfold queuedIdsL
      simp only [List.filter_cons, hq]
      have hfa : ((f r).status == JobStatus.queued) = false := by
        simp [hf_st r]
      simp [hfa]
    · have hne : a.id ≠ r.id := by
        intro he
        exact hnd1 (he ▸ List.mem_map_of_mem _ hrl)
      have hstep := ih hnd2 hrl hq
      unfold updateWhereId at hstep ⊢
      simp only [List.map_cons, if_neg hne]
      unfold queuedIdsL at hstep ⊢
      simp only [List.filter_cons]
      by_cases haq : a.status = JobStatus.queued
      · simp only [haq]
        simp only [show (JobStatus.queued == JobStatus.queued) = true by rfl,
          if_true, List.map_cons, hstep]
        rw [List.erase_cons_tail]
        simp [hne]
      · have haqf : (a.status == JobStatus.queued) = false := by simp [haq]
        simp [haqf, hstep]

/-! ### One atomic claim step -/

theorem claim_step {w : String} {now : Nat} {t : JobTable} {j : Job}
    {t2 : JobTable}
    (hnd : (t.rows.map (fun q => q.id)).Nodup)
    (h : get_next_job w now t = (some j, t2)) :
    j.id ∈ queuedIds t ∧
    queuedIds t2 = (queuedIds t).erase j.id ∧
    t2.rows.map (fun q => q.id) = t.rows.map (fun q => q.id) ∧
    t2.nextId = t.nextId := by
  unfold get_next_job at h
  cases ho : oldestQueued t.rows with
  | none => rw [ho] at h; cases h
  | some r =>
    rw [ho] at h
    obtain ⟨hmem, hq, hmin⟩ := oldestQueued_spec ho
    simp only [Prod.mk.injEq, Option.some.injEq] at h
    obtain ⟨hj, ht⟩ := h
    subst hj
    subst ht
    refine ⟨mem_queuedIdsL hmem hq, ?_, ?_, rfl⟩
    · exact queuedIdsL_claim (fun q => by simp [claimUpdate]) hnd hmem hq
    · exact updateWhereId_map_id r.id (claimUpdate w now)
        (fun q => rfl) t.rows

theorem claim_step_none {w : String} {now : Nat} {t t2 : JobTable}
    (h : get_next_job w now t = (none, t2)) :
    t2 = t ∧ queuedIds t = [] := by
  unfold get_next_job at h
  cases ho : oldestQueued t.rows with
  | none =>
    rw [ho] at h
    simp only [Prod.mk.injEq] at h
    exact ⟨h.2.symm, queuedIdsL_eq_nil.mpr (oldestQueued_eq_none.mp ho)⟩
  | some r => rw [ho] at h; simp at h

/-! ### Preservation of table well-formedness -/

theorem wfTable_update (t : JobTable) (jid : Nat) (f : JobRow → JobRow)
    (hf : ∀ r, (f r).id = r.id) (hwf : wfTable t) :
    wfTable { t with rows := updateWhereId jid f t.rows } := by
  obtain ⟨hnd, hlt⟩ := hwf
  constructor
  · simpa [updateWhereId_map_id jid f hf] using hnd
  · intro r hr
    unfold updateWhereId at hr
    obtain ⟨q, hq, rfl⟩ := List.mem_map.mp hr
    by_cases hid : q.id = jid
    · show (if q.id = jid then f q else q).id < t.nextId
      rw [if_pos hid, hf q]
      exact hlt q hq
    · show (if q.id = jid then f q else q).id < t.nextId
      rw [if_neg hid]
      exact hlt q hq

theorem wfTable_create (payload : JVal) (now : Nat) (t : JobTable)
    (hwf : wfTable t) : wfTable (create_job payload now t).2 := by
  obtain ⟨hnd, hlt⟩ := hwf
  unfold create_job
  constructor
  · simp only [List.map_append, List.map_cons, List.map_nil]
    rw [List.nodup_append]
    refine ⟨hnd, List.nodup_singleton _, ?_⟩
    intro a ha hb
    simp only [List.mem_singleton] at hb
    obtain ⟨q, hq, rfl⟩ := List.mem_map.mp ha
    exact absurd hb (Nat.ne_of_lt (hlt q hq))
  · intro r hr
    rcases List.mem_append.mp hr with h | h
    · exact Nat.lt_succ_of_lt (hlt r h)
    · simp only [List.mem_singleton] at h
      subst h
      exact Nat.lt_succ_self _

theorem wfTable_get_next_job (w : String) (now : Nat) (t : JobTable)
    (hwf : wfTable t) : wfTable (get_next_job w now t).2 := by
  unfold get_next_job
  cases ho : oldestQueued t.rows with
  | none => exact hwf
  | some r => exact wfTable_update t r.id _ (fun q => rfl) hwf

theorem wfTable_complete_job (jid now : Nat) (t : JobTable)
    (hwf : wfTable t) : wfTable (complete_job jid now t) :=
  wfTable_update t jid _ (fun q => rfl) hwf

theorem wfTable_fail_job (jid : Nat) (msg : String) (t : JobTable)
    (hwf : wfTable t) : wfTable (fail_job jid msg t) :=
  wfTable_update t jid _ (fun q => rfl) hwf

theorem wfTable_replace (jid : Nat) (p : JVal) (now : Nat) (t : JobTable)
    (hwf : wfTable t) : wfTable (replace_duplicate_job jid p now t).2 :=
  wfTable_update t jid _ (fun q => rfl) hwf

theorem wfTable_submit (p : JVal) (now : Nat) (t : JobTable)
    (hwf : wfTable t) : wfTable (submitJob p now t).2 := by
  unfold submitJob
  cases h : find_duplicate_job p t with
  | none => exact wfTable_create p now t hwf
  | some jid => exact wfTable_replace jid p now t hwf

theorem wfTable_applyOp (op : SysOp) (t : JobTable) (hwf : wfTable t) :
    wfTable (applyOp op t) := by
  cases op with
  | submit p now => exact wfTable_submit p now t hwf
  | claim w now => exact wfTable_get_next_job w now t hwf
  | complete j now => exact wfTable_complete_job j now t hwf
  | fail j m => exact wfTable_fail_job j m t hwf

/-! ### Sequences of claims -/

theorem runClaims_cons_none {w : String} {ws : List String} {now : Nat}
    {t t2 : JobTable} (h : get_next_job w now t = (none, t2)) :
    runClaims (w :: ws) now t = runClaims ws now t2 := by
  simp only [runClaims, h]

theorem runClaims_cons_some {w : String} {ws : List String} {now : Nat}
    {t t2 : JobTable} {j : Job} (h : get_next_job w now t = (some j, t2)) :
    runClaims (w :: ws) now t =
      (j :: (runClaims ws now t2).1, (runClaims ws now t2).2) := by
  simp only [runClaims, h]

theorem runClaims_of_empty {now : Nat} :
    ∀ (workers : List String) (t : JobTable), queuedIds t = [] →
      runClaims workers now t = ([], t) := by
  intro workers
  induction workers with
  | nil => intro t _; rfl
  | cons w ws ih =>
    intro t h
    have hnone : oldestQueued t.rows = none :=
      oldestQueued_eq_none.mpr (queuedIdsL_eq_nil.mp h)
    have hgn : get_next_job w now t = (none, t) := by
      unfold get_next_job
      rw [hnone]
    rw [runClaims_cons_none hgn]
    exact ih t h

theorem runClaims_perm {now : Nat} :
    ∀ (workers : List String) (t : JobTable), wfTable t →
      (queuedIds t).length ≤ workers.length →
      ((runClaims workers now t).1.map (fun j => j.id)).Perm (queuedIds t) := by
  intro workers
  induction workers with
  | nil =>
    intro t _ hlen
    have hempty : queuedIds t = [] :=
      List.eq_nil_of_length_eq_zero (Nat.le_zero.mp hlen)
    simp [runClaims, hempty]
  | cons w ws ih =>
    intro t hwf hlen
    cases hgn : get_next_job w now t with
    | mk oj t2 =>
      cases oj with
      | none =>
        obtain ⟨ht2, hempty⟩ := claim_step_none hgn
        subst ht2
        rw [runClaims_cons_none hgn, runClaims_of_empty ws t2 hempty, hempty]
        simp
      | some j =>
        obtain ⟨hmem, herase, _hids, _hnext⟩ := claim_step hwf.1 hgn
        have hwf2 : wfTable t2 := by
          have h2 := wfTable_get_next_job w now t hwf
          rw [hgn] at h2
          exact h2
        have hlen2 : (queuedIds t2).length ≤ ws.length := by
          rw [herase, List.length_erase_of_mem hmem]
          have hl : (queuedIds t).length ≤ ws.length + 1 := by
            simpa using hlen
          omega
        have hperm := ih t2 hwf2 hlen2
        rw [runClaims_cons_some hgn]
        simp only [List.map_cons]
        rw [herase] at hperm
        exact (hperm.cons j.id).trans (List.perm_cons_erase hmem).symm

/-! ### FIFO ordering of sequential claims -/

theorem oldestQueued_append_skip {l1 l2 : List JobRow}
    (h : ∀ a ∈ l1, a.status ≠ JobStatus.queued) :
    oldestQueued (l1 ++ l2) = oldestQueued l2 := by
  induction l1 with
  | nil => rfl
  | cons a l ih =>
    have ha := h a (List.mem_cons_self a l)
    simp only [List.cons_append, oldestQueued, if_neg ha]
    exact ih (fun b hb => h b (List.mem_cons_of_mem a hb))

theorem oldestQueued_cons_min {p : JobRow} {ps : List JobRow}
    (hq : p.status = JobStatus.queued)
    (hmin : ∀ b, oldestQueued ps = some b → p.created_at ≤ b.created_at) :
    oldestQueued (p :: ps) = some p := by
  simp only [oldestQueued, hq, if_true]
  cases hb : oldestQueued ps with
  | none => rfl
  | some b => simp [hmin b hb]

theorem updateWhereId_append (jid : Nat) (f : JobRow → JobRow)
    (l1 l2 : List JobRow) :
    updateWhereId jid f (l1 ++ l2) =
      updateWhereId jid f l1 ++ updateWhereId jid f l2 :=
  List.map_append _ _ _

theorem runClaims_fifo {now : Nat} :
    ∀ (workers : List String) (done pending : List JobRow) (nid : Nat),
      wfTable { rows := done ++ pending, nextId := nid } →
      (∀ r ∈ done, r.status = JobStatus.processing) →
      (∀ r ∈ pending, r.status = JobStatus.queued) →
      pending.Pairwise (fun a b => a.created_at < b.created_at) →
      (runClaims workers now
          { rows := done ++ pending, nextId := nid }).1.map (fun j => j.id) =
        (pending.map (fun r => r.id)).take workers.length := by
  intro workers
  induction workers with
  | nil => intro done pending nid _ _ _ _; simp [runClaims]
  | cons w ws ih =>
    intro done pending nid hwf hdone hpend hsort
    cases pending with
    | nil =>
      have hempty : queuedIds { rows := done ++ [], nextId := nid } = [] := by
        apply queuedIdsL_eq_nil.mpr
        intro r hr
        rw [List.append_nil] at hr
        rw [hdone r hr]
        simp
      rw [runClaims_of_empty _ _ hempty]
      simp
    | cons p ps =>
      have hps_lt : ∀ q ∈ ps, p.created_at < q.created_at :=
        (List.pairwise_cons.mp hsort).1
      have hosq : oldestQueued (done ++ p :: ps) = some p := by
        rw [oldestQueued_append_skip (fun a ha => by rw [hdone a ha]; simp)]
        apply oldestQueued_cons_min (hpend p (List.mem_cons_self p ps))
        intro b hb
        obtain ⟨hbmem, _, _⟩ := oldestQueued_spec hb
        exact Nat.le_of_lt (hps_lt b hbmem)
      have hgn : get_next_job w now { rows := done ++ p :: ps, nextId := nid } =
          (some { id := p.id, payload := p.payload,
                  status := JobStatus.processing,
                  attempt_count := p.attempt_count },
            { rows := updateWhereId p.id (claimUpdate w now) (done ++ p :: ps),
              nextId := nid }) := by
        unfold get_next_job
        rw [show ({ rows := done ++ p :: ps, nextId := nid } : JobTable).rows
          = done ++ p :: ps from rfl, hosq]
      have hnd : ((done ++ p :: ps).map (fun r => r.id)).Nodup := hwf.1
      rw [List.map_append] at hnd
      obtain ⟨hnd1, hnd2, hdisj⟩ := List.nodup_append.mp hnd
      have hne_done : ∀ r ∈ done, r.id ≠ p.id := by
        intro r hr he
        exact hdisj (List.mem_map_of_mem _ hr)
          (he ▸ List.mem_map_of_mem _ (List.mem_cons_self p ps))
      rw [List.map_cons] at hnd2
      have hpnot : p.id ∉ ps.map (fun r => r.id) := (List.nodup_cons.mp hnd2).1
      have hne_ps : ∀ r ∈ ps, r.id ≠ p.id :=
        fun r hr he => hpnot (he ▸ List.mem_map_of_mem _ hr)
      have hupd : updateWhereId p.id (claimUpdate w now) (done ++ p :: ps) =
          done ++ (claimUpdate w now p :: ps) := by
        rw [updateWhereId_append]
        rw [updateWhereId_of_forall_ne _ _ done hne_done]
        congr 1
        have hps := updateWhereId_of_forall_ne p.id (claimUpdate w now) ps hne_ps
        have hp : (if p.id = p.id then claimUpdate w now p else p) =
            claimUpdate w now p := if_pos rfl
        unfold updateWhereId at hps ⊢
        simp only [List.map_cons, hp, hps]
        simp [hps]
      have hasc : done ++ (claimUpdate w now p :: ps) =
          (done ++ [claimUpdate w now p]) ++ ps := by
        rw [List.append_assoc]
        rfl
      have hwf2 : wfTable
          { rows := (done ++ [claimUpdate w now p]) ++ ps, nextId := nid } := by
        have h2 := wfTable_update { rows := done ++ p :: ps, nextId := nid }
          p.id (claimUpdate w now) (fun q => rfl) hwf
        rw [show ({ rows := done ++ p :: ps, nextId := nid } : JobTable).rows
          = done ++ p :: ps from rfl, hupd, hasc] at h2
        exact h2
      have hdone2 : ∀ r ∈ done ++ [claimUpdate w now p],
          r.status = JobStatus.processing := by
        intro r hr
        rcases List.mem_append.mp hr with h | h
        · exact hdone r h
        · simp only [List.mem_singleton] at h
          subst h
          rfl
      have ihx := ih (done ++ [claimUpdate w now p]) ps nid hwf2 hdone2
        (fun r hr => hpend r (List.mem_cons_of_mem p hr))
        (List.pairwise_cons.mp hsort).2
      rw [runClaims_cons_some hgn]
      simp only [List.map_cons, List.length_cons, List.take_succ_cons]
      rw [hupd, hasc]
      rw [ihx]

/-! ### Lifecycle monotonicity machinery -/

theorem find_duplicate_live {t : JobTable} {p : JVal} {jid : Nat}
    (h : find_duplicate_job p t = some jid) :
    ∃ r ∈ t.rows, r.id = jid ∧
      (r.status = JobStatus.queued ∨ r.status = JobStatus.processing) := by
  unfold find_duplicate_job at h
  cases hf : (t.rows.find? (fun r => jsonbEq r.payload p &&
      (r.status == JobStatus.queued || r.status == JobStatus.processing))) with
  | none => rw [hf] at h; cases h
  | some r =>
    rw [hf, Option.map_some'] at h
    have hp := List.find?_some hf
    simp only [Bool.and_eq_true, Bool.or_eq_true, beq_iff_eq] at hp
    exact ⟨r, List.mem_of_find?_eq_some hf, by injection h, hp.2⟩

theorem getRow_append_found {t : JobTable} {k : Nat} {r : JobRow}
    (l2 : List JobRow) (nid : Nat) (h : getRow t k = some r) :
    getRow { rows := t.rows ++ l2, nextId := nid } k = some r := by
  unfold getRow at h ⊢
  show (t.rows ++ l2).find? (fun q => q.id == k) = some r
  rw [List.find?_append, h]
  rfl

theorem step_not_queued {t : JobTable} {k : Nat} {r : JobRow} (op : SysOp)
    (hwf : wfTable t) (h : getRow t k = some r)
    (hst : r.status = JobStatus.completed ∨ r.status = JobStatus.failed) :
    ∃ r2, getRow (applyOp op t) k = some r2 ∧
      (r2.status = JobStatus.completed ∨ r2.status = JobStatus.failed) := by
  have hne_live : ∀ q ∈ t.rows, q.id = k →
      (q.status = JobStatus.queued ∨ q.status = JobStatus.processing) →
      False := by
    intro q hq hqid hqlive
    have hqr : q = r :=
      List.inj_on_of_nodup_map hwf.1 hq (getRow_id h).2
        (by rw [hqid, (getRow_id h).1])
    subst hqr
    rcases hst with hs | hs <;> rcases hqlive with hl | hl <;>
      rw [hs] at hl <;> cases hl
  cases op with
  | submit p now =>
    show ∃ r2, getRow (submitJob p now t).2 k = some r2 ∧ _
    unfold submitJob
    cases hd : find_duplicate_job p t with
    | none =>
      unfold create_job
      exact ⟨r, getRow_append_found _ _ h, hst⟩
    | some jid =>
      obtain ⟨q, hqmem, hqid, hqlive⟩ := find_duplicate_live hd
      have hkne : k ≠ jid := by
        intro he
        exact hne_live q hqmem (by rw [hqid, he]) hqlive
      unfold replace_duplicate_job
      exact ⟨r, by
        rw [getRow_update_other (replaceUpdate p now) (fun q2 => rfl) hkne]
        exact h, hst⟩
  | claim w now =>
    show ∃ r2, getRow (get_next_job w now t).2 k = some r2 ∧ _
    unfold get_next_job
    cases ho : oldestQueued t.rows with
    | none => exact ⟨r, h, hst⟩
    | some r0 =>
      obtain ⟨h0mem, h0q, _⟩ := oldestQueued_spec ho
      have hkne : k ≠ r0.id := by
        intro he
        exact hne_live r0 h0mem he.symm (Or.inl h0q)
      exact ⟨r, by
        rw [getRow_update_other (claimUpdate w now) (fun q2 => rfl) hkne]
        exact h, hst⟩
  | complete jid now =>
    show ∃ r2, getRow (complete_job jid now t) k = some r2 ∧ _
    unfold complete_job
    by_cases hk : k = jid
    · subst hk
      exact ⟨completeUpdate now r,
        getRow_update_self (completeUpdate now) (fun q2 => rfl) h,
        Or.inl rfl⟩
    · exact ⟨r, by
        rw [getRow_update_other (completeUpdate now) (fun q2 => rfl) hk]
        exact h, hst⟩
  | fail jid m =>
    show ∃ r2, getRow (fail_job jid m t) k = some r2 ∧ _
    unfold fail_job
    by_cases hk : k = jid
    · subst hk
      exact ⟨failUpdate m r,
        getRow_update_self (failUpdate m) (fun q2 => rfl) h,
        Or.inr rfl⟩
    · exact ⟨r, by
        rw [getRow_update_other (failUpdate m) (fun q2 => rfl) hk]
        exact h, hst⟩

theorem runOps_not_queued {k : Nat} :
    ∀ (ops : List SysOp) (t : JobTable) (r : JobRow), wfTable t →
      getRow t k = some r →
      (r.status = JobStatus.completed ∨ r.status = JobStatus.failed) →
      ∃ r2, getRow (runOps ops t) k = some r2 ∧
        (r2.status = JobStatus.completed ∨ r2.status = JobStatus.failed) := by
  intro ops
  induction ops with
  | nil => intro t r _ h hst; exact ⟨r, h, hst⟩
  | cons op rest ih =>
    intro t r hwf h hst
    obtain ⟨r2, h2, hst2⟩ := step_not_queued op hwf h hst
    exact ih (applyOp op t) r2 (wfTable_applyOp op t hwf) h2 hst2

theorem find?_id_of_mem {rows : List JobRow} {r : JobRow}
    (hnd : (rows.map (fun q => q.id)).Nodup) (hmem : r ∈ rows) :
    rows.find? (fun q => q.id == r.id) = some r := by
  induction rows with
  | nil => cases hmem
  | cons a l ih =>
    rw [List.map_cons, List.nodup_cons] at hnd
    rcases List.mem_cons.mp hmem with h | h
    · subst h
      rw [List.find?_cons_of_pos]
      simp
    · have hane : ¬ (a.id == r.id) = true := by
        simp only [beq_iff_eq]
        intro he
        exact hnd.1 (he ▸ List.mem_map_of_mem _ h)
      rw [List.find?_cons_of_neg (p := fun q : JobRow => q.id == r.id) _ hane]
      exact ih hnd.2 h

theorem getRow_of_mem {t : JobTable} {r : JobRow}
    (hnd : (t.rows.map (fun q => q.id)).Nodup) (hmem : r ∈ t.rows) :
    getRow t r.id = some r :=
  find?_id_of_mem hnd hmem

/-! ### The claims -/

/-- C1, counterexample: submit `{"task":"x"}` to an empty store, let a
worker claim it (the claim succeeds and returns the job) and complete it;
contrary to the claim, the job's `attempt_count` is not 1 afterwards —
the SET list of `get_next_job`'s UPDATE never touches `attempt_count`. -/
theorem C1_counterexample :
    (getRow (complete_job 0 2 (get_next_job "w1" 1
        (submitJob taskX 0 emptyTable).2).2) 0).map
      (fun r => r.attempt_count) ≠ some 1 := by
  decide

/-- C1, amended: after a worker's first successful claim-and-complete
iteration on a freshly submitted job, the job's `attempt_count` equals 0:
it is 0 at creation and `get_next_job` does not increment it — indeed a
claim leaves every row's `attempt_count` unchanged. -/
theorem C1_attempt_count_unchanged (p : JVal) (w : String) (n0 n1 n2 : Nat) :
    (getRow (complete_job (submitJob p n0 emptyTable).1 n2
        (get_next_job w n1 (submitJob p n0 emptyTable).2).2)
        (submitJob p n0 emptyTable).1).map (fun r => r.attempt_count) =
      some 0 ∧
    ∀ (t : JobTable) (k : Nat),
      (getRow (get_next_job w n1 t).2 k).map (fun r => r.attempt_count) =
        (getRow t k).map (fun r => r.attempt_count) := by
  constructor
  · rfl
  · intro t k
    unfold get_next_job
    cases ho : oldestQueued t.rows with
    | none => rfl
    | some r =>
      rw [getRow_mk_update t r.id k (claimUpdate w n1) (fun q => rfl)]
      cases hg : getRow t k with
      | none => rfl
      | some q =>
        by_cases hq : q.id = r.id
        · simp [hq, claimUpdate]
        · simp [hq]

/-- C3: any interleaving of claim calls by a list of workers (each call
one atomic transaction) against a table with at most as many queued jobs
as workers claims each queued job exactly once: the claimed ids are
pairwise distinct and are a permutation of the initially queued ids. -/
theorem C3_disjoint_claims (workers : List String) (now : Nat)
    (t : JobTable) (hwf : wfTable t)
    (hM : (queuedIds t).length ≤ workers.length) :
    ((runClaims workers now t).1.map (fun j => j.id)).Nodup ∧
    ((runClaims workers now t).1.map (fun j => j.id)).Perm (queuedIds t) := by
  have hperm := @runClaims_perm now workers t hwf hM
  exact ⟨hperm.symm.nodup (queuedIdsL_nodup hwf.1), hperm⟩

/-- C3 witness: two workers against the two queued jobs of `twoJobs`
claim ids 0 and 1, each exactly once. -/
theorem C3_witness :
    ((runClaims ["w1", "w2"] 5 twoJobs).1.map (fun j => j.id)).Nodup ∧
    ((runClaims ["w1", "w2"] 5 twoJobs).1.map (fun j => j.id)).Perm
      (queuedIds twoJobs) :=
  C3_disjoint_claims ["w1", "w2"] 5 twoJobs (by decide) (by decide)

/-- C5: for an existing row, `replace_duplicate_job` returns the same job
id, overwrites the payload, resets status to `queued` and
`attempt_count` to 0, clears `worker_id` and `started_at`, refreshes
`created_at` to the given time, and leaves every other row unchanged. -/
theorem C5_replace_spec (jid : Nat) (newP : JVal) (now : Nat)
    (t : JobTable) {r : JobRow} (h : getRow t jid = some r) :
    (replace_duplicate_job jid newP now t).1 = jid ∧
    getRow (replace_duplicate_job jid newP now t).2 jid =
      some { r with payload := newP, status := JobStatus.queued,
                    attempt_count := 0, created_at := now,
                    worker_id := none, started_at := none } ∧
    ∀ k, k ≠ jid →
      getRow (replace_duplicate_job jid newP now t).2 k = getRow t k := by
  refine ⟨rfl, ?_, ?_⟩
  · exact getRow_update_self (replaceUpdate newP now) (fun q => rfl) h
  · intro k hk
    exact getRow_update_other (replaceUpdate newP now) (fun q => rfl) hk

/-- C5 witness: replacing job 0 of `twoJobs` with payload `null` keeps id
0, resets the row, and leaves row 1 untouched. -/
theorem C5_witness :
    (replace_duplicate_job 0 JVal.null 7 twoJobs).1 = 0 ∧
    getRow (replace_duplicate_job 0 JVal.null 7 twoJobs).2 0 =
      some { rowA with payload := JVal.null, status := JobStatus.queued,
                       attempt_count := 0, created_at := 7,
                       worker_id := none, started_at := none } ∧
    getRow (replace_duplicate_job 0 JVal.null 7 twoJobs).2 1 =
      getRow twoJobs 1 :=
  have h := C5_replace_spec 0 JVal.null 7 twoJobs (r := rowA) (by decide)
  ⟨h.1, h.2.1, h.2.2 1 (by decide)⟩

/-- C7: `SimpleWorker.process_job` on a claimed job: if the opaque
execution step raises with message `m`, the job ends with status `failed`
and `last_error = m`; if it succeeds, the job is marked `completed`. -/
theorem C7_process_job (jid now : Nat) (t : JobTable) {r : JobRow}
    (h : getRow t jid = some r) :
    (∀ m, getRow (process_job (ExecOutcome.failure m) jid now t) jid =
        some { r with status := JobStatus.failed, last_error := some m }) ∧
    getRow (process_job ExecOutcome.success jid now t) jid =
      some { r with status := JobStatus.completed,
                    completed_at := some now } := by
  constructor
  · intro m
    exact getRow_update_self (failUpdate m) (fun q => rfl) h
  · exact getRow_update_self (completeUpdate now) (fun q => rfl) h

/-- C7 witness: the spec's failure scenario — the opaque step raises
"boom" on job 0, which ends `failed` with `last_error = "boom"`; and the
success case marks it `completed`. -/
theorem C7_witness :
    getRow (process_job (ExecOutcome.failure "boom") 0 9 twoJobs) 0 =
      some { rowA with status := JobStatus.failed,
                       last_error := some "boom" } ∧
    getRow (process_job ExecOutcome.success 0 9 twoJobs) 0 =
      some { rowA with status := JobStatus.completed,
                       completed_at := some 9 } :=
  have h := C7_process_job 0 9 twoJobs (r := rowA) (by decide)
  ⟨h.1 "boom", h.2⟩

/-- C8: finalizing a job id that matches no row is a no-op (the table is
unchanged; no exception is modelled because the Lean functions are total,
matching an UPDATE that affects zero rows); and `complete_job` on an
already-completed row only restamps `completed_at`, leaving every other
field (including its `completed` status) unchanged. -/
theorem C8_finalize_safe (jid now : Nat) (m : String) (t : JobTable) :
    (getRow t jid = none →
      complete_job jid now t = t ∧ fail_job jid m t = t) ∧
    (∀ r, getRow t jid = some r → r.status = JobStatus.completed →
      getRow (complete_job jid now t) jid =
        some { r with completed_at := some now }) := by
  constructor
  · intro h
    exact ⟨complete_job_not_found now h, fail_job_not_found m h⟩
  · intro r h hc
    have hx := getRow_update_self (completeUpdate now) (fun q => rfl) h
    have heq : completeUpdate now r = { r with completed_at := some now } := by
      unfold completeUpdate
      rw [← hc]
    rw [heq] at hx
    exact hx

/-- C8 witness: completing or failing the absent id 5 leaves `doneTable`
unchanged, and re-completing the already-completed job 0 only restamps
`completed_at`. -/
theorem C8_witness :
    (complete_job 5 9 doneTable = doneTable ∧
      fail_job 5 "m" doneTable = doneTable) ∧
    getRow (complete_job 0 9 doneTable) 0 =
      some { rowDone with completed_at := some 9 } :=
  ⟨(C8_finalize_safe 5 9 "m" doneTable).1 (by decide),
   (C8_finalize_safe 0 9 "m" doneTable).2 rowDone (by decide) (by decide)⟩

/-- C9: `complete_job` and `fail_job` update unconditionally: whatever
the current status of an existing row, `complete_job` sets it to
`completed` (stamping `completed_at`) and `fail_job` sets it to `failed`
(setting `last_error`) — neither checks a `processing` precondition. -/
theorem C9_finalize_unconditional (jid now : Nat) (m : String)
    (t : JobTable) {r : JobRow} (h : getRow t jid = some r) :
    getRow (complete_job jid now t) jid =
      some { r with status := JobStatus.completed,
                    completed_at := some now } ∧
    getRow (fail_job jid m t) jid =
      some { r with status := JobStatus.failed, last_error := some m } :=
  ⟨getRow_update_self (completeUpdate now) (fun q => rfl) h,
   getRow_update_self (failUpdate m) (fun q => rfl) h⟩

/-- C9 witness: job 0 of `twoJobs` is still `queued`, yet `complete_job`
marks it `completed` and `fail_job` marks it `failed`. -/
theorem C9_witness :
    getRow (complete_job 0 9 twoJobs) 0 =
      some { rowA with status := JobStatus.completed,
                       completed_at := some 9 } ∧
    getRow (fail_job 0 "oops" twoJobs) 0 =
      some { rowA with status := JobStatus.failed,
                       last_error := some "oops" } :=
  C9_finalize_unconditional 0 9 "oops" twoJobs (r := rowA) (by decide)

/-- C10: with the connection pool gone (`self.pool is None`, i.e. before
`initialize()` or after `close()`), every repository operation raises the
`RuntimeError` of `_acquire_conn` and leaves all job state unchanged. -/
theorem C10_pool_guard (db : DatabaseManager) (p : JVal) (w : String)
    (jid now : Nat) (m : String) (hpool : db.pool = false) :
    PoolRejects db p w jid now m := by
  have hacq : acquire_conn db = Except.error poolErr := by
    unfold acquire_conn
    rw [hpool]
    rfl
  unfold PoolRejects db_create_job db_get_next_job db_complete_job
    db_fail_job db_get_job_by_id db_find_duplicate_job
    db_replace_duplicate_job
  rw [hacq]
  exact ⟨rfl, rfl, rfl, rfl, rfl, rfl, rfl⟩

/-- C10 witness: a freshly constructed manager (pool not yet initialized)
rejects all seven operations without touching state; and a closed
manager is in the same pool-less state. -/
theorem C10_witness :
    PoolRejects (DatabaseManager.new twoJobs) taskX "w1" 0 5 "boom" ∧
    (DatabaseManager.shutdown
      (DatabaseManager.setup (DatabaseManager.new twoJobs))).pool = false :=
  ⟨C10_pool_guard (DatabaseManager.new twoJobs) taskX "w1" 0 5 "boom" rfl,
   rfl⟩

/-- C4: `get_next_job` satisfies `ClaimNextSpec`: it atomically claims
the single oldest queued row (by `created_at`), sets its status to
`processing`, assigns `worker_id`, stamps `started_at`, and returns the
row's new state; it returns none (without blocking — the function is
total) when no queued row exists; and sequential claims over jobs with
strictly increasing creation times return them in creation order. -/
theorem C4_claim_next (w : String) (now : Nat) (t : JobTable)
    (hwf : wfTable t) : ClaimNextSpec w now t := by
  refine ⟨?_, ?_, ?_⟩
  · intro hn
    have hx : get_next_job w now t = (none, (get_next_job w now t).2) := by
      rw [← hn]
    exact claim_step_none hx
  · intro j hj
    cases ho : oldestQueued t.rows with
    | none =>
      have hgn : get_next_job w now t = (none, t) := by
        unfold get_next_job
        rw [ho]
      rw [hgn] at hj
      cases hj
    | some r =>
      have hgn : get_next_job w now t =
          (some { id := r.id, payload := r.payload,
                  status := JobStatus.processing,
                  attempt_count := r.attempt_count },
            { t with
              rows := updateWhereId r.id (claimUpdate w now) t.rows }) := by
        unfold get_next_job
        rw [ho]
      obtain ⟨hmem, hq, hmin⟩ := oldestQueued_spec ho
      rw [hgn] at hj
      simp only [Option.some.injEq] at hj
      refine ⟨r, hmem, hq, hmin, hj.symm, ?_, ?_⟩
      · rw [hgn]
        exact getRow_update_self (claimUpdate w now) (fun q => rfl)
          (getRow_of_mem hwf.1 hmem)
      · intro k hk
        rw [hgn]
        exact getRow_update_other (claimUpdate w now) (fun q => rfl) hk
  · intro workers hq hsort
    have hfifo := @runClaims_fifo now workers [] t.rows t.nextId hwf
      (fun r hr => absurd hr (List.not_mem_nil r)) hq hsort
    exact hfifo

/-- C4 witness: on `twoJobs` (two queued rows, increasing creation
times) `get_next_job` obeys the claim specification. -/
theorem C4_witness : ClaimNextSpec "w1" 5 twoJobs :=
  C4_claim_next "w1" 5 twoJobs (by decide)

/-- C6: in every state reached from a well-formed state by any sequence
of system operations (submit with its internal dedup-replace, claim,
complete, fail — i.e. everything the handlers and the worker loop do,
with no standalone replace call), a job observed `completed` or `failed`
is never observed `queued` again. -/
theorem C6_lifecycle_monotonic (ops : List SysOp) (t : JobTable) (k : Nat)
    (r : JobRow) (hwf : wfTable t) (h : getRow t k = some r)
    (hst : r.status = JobStatus.completed ∨ r.status = JobStatus.failed) :
    (getRow (runOps ops t) k).map (fun q => q.status) ≠
      some JobStatus.queued := by
  intro hq
  obtain ⟨r2, h2, hst2⟩ := runOps_not_queued ops t r hwf h hst
  rw [h2, Option.map_some'] at hq
  injection hq with he
  rcases hst2 with hs | hs <;> rw [hs] at he <;> cases he

/-- C6 witness: job 0 of `doneTable` is `completed`; after a resubmission
of its own payload, a claim, a foreign fail and a complete, it is still
not `queued`. -/
theorem C6_witness :
    (getRow (runOps [SysOp.submit taskX 3, SysOp.claim "w1" 4,
        SysOp.fail 1 "boom", SysOp.complete 0 6] doneTable) 0).map
      (fun q => q.status) ≠ some JobStatus.queued :=
  C6_lifecycle_monotonic [SysOp.submit taskX 3, SysOp.claim "w1" 4,
      SysOp.fail 1 "boom", SysOp.complete 0 6] doneTable 0 rowDone
    (by decide) (by decide) (Or.inl (by decide))

/-- C2: dedup collapse.  The payload column is spec-modelled as jsonb
(structural equality of canonicalized payloads, `jsonbEq`).  Starting
from any well-formed table with no live (queued/processing) row matching
payload `P`, submitting `P` twice yields the same job id both times —
the second submission replaces the row the first one created instead of
inserting — and afterwards that row is `queued` with `attempt_count = 0`
(and the second submission's `created_at`). -/
theorem C2_dedup_collapse (P : JVal) (now1 now2 : Nat) (t : JobTable)
    (hwf : wfTable t)
    (hfresh : ∀ r ∈ t.rows,
      (r.status = JobStatus.queued ∨ r.status = JobStatus.processing) →
      jsonbEq r.payload P = false) :
    (submitJob P now2 (submitJob P now1 t).2).1 = (submitJob P now1 t).1 ∧
    getRow (submitJob P now2 (submitJob P now1 t).2).2
        (submitJob P now1 t).1 =
      some { id := t.nextId, payload := P, status := JobStatus.queued,
             attempt_count := 0, worker_id := none, created_at := now2,
             started_at := none, completed_at := none,
             last_error := none } := by
  have hpredf : ∀ r ∈ t.rows, ¬ ((jsonbEq r.payload P &&
      (r.status == JobStatus.queued || r.status == JobStatus.processing))
        = true) := by
    intro r hr hp
    simp only [Bool.and_eq_true, Bool.or_eq_true, beq_iff_eq] at hp
    have hff := hfresh r hr hp.2
    rw [hff] at hp
    exact Bool.false_ne_true hp.1
  have hfd1 : find_duplicate_job P t = none := by
    unfold find_duplicate_job
    rw [List.find?_eq_none.mpr hpredf]
    rfl
  have h1 : submitJob P now1 t =
      (t.nextId, { rows := t.rows ++ [newRow P now1 t.nextId],
                   nextId := t.nextId + 1 }) := by
    unfold submitJob
    rw [hfd1]
    rfl
  have hrows :
      ({ rows := t.rows ++ [newRow P now1 t.nextId],
         nextId := t.nextId + 1 } : JobTable).rows =
        t.rows ++ [newRow P now1 t.nextId] := rfl
  have hpred2 : ((jsonbEq (newRow P now1 t.nextId).payload P &&
      ((newRow P now1 t.nextId).status == JobStatus.queued ||
       (newRow P now1 t.nextId).status == JobStatus.processing))) = true := by
    simp [newRow, jsonbEq]
  have hfd2 : find_duplicate_job P
      { rows := t.rows ++ [newRow P now1 t.nextId],
        nextId := t.nextId + 1 } = some t.nextId := by
    unfold find_duplicate_job
    rw [hrows, List.find?_append, List.find?_eq_none.mpr hpredf,
      List.find?_cons_of_pos (p := fun r : JobRow => jsonbEq r.payload P &&
        (r.status == JobStatus.queued || r.status == JobStatus.processing))
        _ hpred2]
    rfl
  have hids : ∀ r ∈ t.rows, ¬ ((r.id == t.nextId) = true) := by
    intro r hr
    simp only [beq_iff_eq]
    exact Nat.ne_of_lt (hwf.2 r hr)
  have hg1 : getRow
      { rows := t.rows ++ [newRow P now1 t.nextId],
        nextId := t.nextId + 1 } t.nextId = some (newRow P now1 t.nextId) := by
    unfold getRow
    rw [hrows, List.find?_append, List.find?_eq_none.mpr hids,
      List.find?_cons_of_pos (p := fun r : JobRow => r.id == t.nextId)
        _ (by simp [newRow])]
    rfl
  have h2 : submitJob P now2
      { rows := t.rows ++ [newRow P now1 t.nextId],
        nextId := t.nextId + 1 } =
      (t.nextId,
        { rows := updateWhereId t.nextId (replaceUpdate P now2)
            (t.rows ++ [newRow P now1 t.nextId]),
          nextId := t.nextId + 1 }) := by
    unfold submitJob
    rw [hfd2]
    rfl
  constructor
  · simp only [h1, h2]
  · simp only [h1, h2]
    exact getRow_update_self (replaceUpdate P now2) (fun q => rfl) hg1

/-- C2 witness: submitting `{"task":"x"}` twice to an empty store returns
job id 0 both times and leaves the single row queued with
`attempt_count = 0`. -/
theorem C2_witness :
    (submitJob taskX 1 (submitJob taskX 0 emptyTable).2).1 =
      (submitJob taskX 0 emptyTable).1 ∧
    getRow (submitJob taskX 1 (submitJob taskX 0 emptyTable).2).2
        (submitJob taskX 0 emptyTable).1 =
      some { id := 0, payload := taskX, status := JobStatus.queued,
             attempt_count := 0, worker_id := none, created_at := 1,
             started_at := none, completed_at := none,
             last_error := none } :=
  C2_dedup_collapse taskX 0 1 emptyTable (by decide) (by decide)

end AsyncWorker
